import Mathlib

/-!
Verification of the fetch/retry/merge pipeline of
`get_stocks_data.py` and `test.py` (innovative-drug stocks scraper).

Modelling conventions, shared by all definitions below:

* Calendar dates are day numbers (`Nat`).  The Python code compares dates
  either as `YYYYMMDD` / `YYYY-MM-DD` strings or as pandas timestamps; on
  well-formed dates both comparisons agree with the chronological order,
  which the day-number order mirrors, and "+ 1 day" is `+ 1`.
* Sleeping durations are rationals (seconds); the scripts use Python
  floats such as 0.1, whose arithmetic at these magnitudes is exact.
* pandas DataFrames of stock records are `List StockRecord`, rows in
  DataFrame order; DataFrames of list rows are `List Instr`.
* Exceptions are modelled as explicit outcomes (`Except`, `Option`, or
  dedicated constructors); `time.sleep` is recorded as data (or omitted
  where no claim mentions it); console printing is ignored.
-/

namespace Stocks

/-- One row of the output dataset: the canonical record schema produced by
the column renaming in `_get_a_stock_data` / `_get_hk_stock_data`
(columns Date, Code, Open, Close, High, Low, Volume, Trading_Volume,
Name, Type). `typ` is the market tag column `Type` (`"A"` or `"HK"`). -/
structure StockRecord where
  date : Nat
  code : String
  openPrice : Int
  closePrice : Int
  highPrice : Int
  lowPrice : Int
  volume : Int
  tradingVolume : Int
  name : String
  typ : String
deriving DecidableEq

/-- One row of an input stock list (and also one entry of a failed-stocks
list): the dict with keys 代码 (code) and 名称 (name). -/
structure Instr where
  code : String
  name : String
deriving DecidableEq

/-- The duplicate-removal key used by
`drop_duplicates(subset=['Date', 'Code', 'Type'])`. -/
def key (r : StockRecord) : Nat × String × String :=
  (r.date, r.code, r.typ)

/-- Lexicographically ordered key type for sorting records.  String
comparisons are pandas' codepoint-lexicographic ones, modelled on the
character lists underlying the strings. -/
abbrev KeyL := Lex (Nat × Lex (List Char × List Char))

/-- The sort key of `_sort_dataframe`: `sort_values(['Date', 'Type', 'Code'])`,
compared lexicographically. -/
def sortKey (r : StockRecord) : KeyL :=
  toLex (r.date, toLex (r.typ.data, r.code.data))

/-- The canonical key tuple named by the spec: (date, code, market),
compared lexicographically. -/
def canonKey (r : StockRecord) : KeyL :=
  toLex (r.date, toLex (r.code.data, r.typ.data))

/-- Boolean comparison used to model the pandas sort in `_sort_dataframe`. -/
def recLeB (a b : StockRecord) : Bool :=
  decide (sortKey a ≤ sortKey b)

/-- `_sort_dataframe`: sort by ['Date', 'Type', 'Code'].  (The datetime
round-trip that the Python function performs on the Date column is the
identity on the day numbers modelling canonical dates.) -/
def sortDataframe (df : List StockRecord) : List StockRecord :=
  df.mergeSort recLeB

/-- `drop_duplicates(subset=['Date', 'Code', 'Type'], keep='last')`: a row
is kept exactly when no later row has the same key, and kept rows stay in
their original relative order. -/
def dropDupKeepLast : List StockRecord → List StockRecord
  | [] => []
  | r :: rs =>
    if key r ∈ rs.map key then dropDupKeepLast rs
    else r :: dropDupKeepLast rs

/-- The merge step of `get_innovative_drug_stocks_data`
(get_stocks_data.py lines 504-520): concatenate the existing dataset with
the newly fetched rows, drop duplicate (Date, Code, Type) keys keeping
the last occurrence, and sort with `_sort_dataframe`. -/
def mergeDatasets (existing incoming : List StockRecord) : List StockRecord :=
  sortDataframe (dropDupKeepLast (existing ++ incoming))

/-- The last row of `l` carrying key `k`, if any (the row that
`keep='last'` retains for that key). -/
def lastWithKey : List StockRecord → Nat × String × String → Option StockRecord
  | [], _ => none
  | r :: rs, k => (lastWithKey rs k).or (if key r = k then some r else none)

/-- The rows of `l` carry pairwise distinct deduplication keys. -/
def KeysNodup (l : List StockRecord) : Prop :=
  (l.map key).Nodup

/-- Strict version of the `_sort_dataframe` key comparison. -/
def recLt (a b : StockRecord) : Prop :=
  sortKey a < sortKey b

instance : IsAntisymm StockRecord recLt :=
  ⟨fun _ _ h1 h2 => absurd h1 (lt_asymm h2)⟩

/-- An A-share record (market tag column Type = "A") with code "B". -/
def cexRecA : StockRecord :=
  ⟨1, "B", 0, 0, 0, 0, 0, 0, "n1", "A"⟩

/-- A Hong Kong record (market tag column Type = "HK") with code "A". -/
def cexRecHK : StockRecord :=
  ⟨1, "A", 0, 0, 0, 0, 0, 0, "n2", "HK"⟩

/-- One row of the raw provider dataframe, before column renaming.  For
the HK provider the code column is absent; its slot here is simply
ignored by the HK normalization, which injects the symbol instead. -/
structure RawRow where
  date : Nat
  code : String
  openPrice : Int
  closePrice : Int
  highPrice : Int
  lowPrice : Int
  volume : Int
  tradingVolume : Int
deriving DecidableEq

/-- A raw provider dataframe.  `wellFormed` records whether the columns
the normalization selects are present: when they are not, the column
selection inside the try-block raises. -/
structure Frame where
  rows : List RawRow
  wellFormed : Bool
deriving DecidableEq

/-- The observable behaviour of one provider call (one attempt): the call
raises an exception, or it returns a dataframe. -/
inductive AttemptOutcome where
  | raise
  | ret (frame : Frame)

/-- How one iteration of the retry loop ends: the try-block returns from
the function (`done`), or an exception lands in the except-handler
(`exn`). -/
inductive StepResult where
  | done (res : Option (List StockRecord))
  | exn

/-- The column renaming of `_get_a_stock_data`: keep the provider's code
column, stamp Name and Type = "A". -/
def normalizeA (name : String) (f : Frame) : List StockRecord :=
  f.rows.map fun r =>
    ⟨r.date, r.code, r.openPrice, r.closePrice, r.highPrice, r.lowPrice,
      r.volume, r.tradingVolume, name, "A"⟩

/-- The column renaming of `_get_hk_stock_data`: the provider frame has no
code column, so the symbol is injected as Code; stamp Name and
Type = "HK". -/
def normalizeHK (symbol name : String) (f : Frame) : List StockRecord :=
  f.rows.map fun r =>
    ⟨r.date, symbol, r.openPrice, r.closePrice, r.highPrice, r.lowPrice,
      r.volume, r.tradingVolume, name, "HK"⟩

/-- The body of the try-block at attempt `t`: a provider exception or a
malformed non-empty frame falls into the except-handler; an empty frame
returns None immediately; otherwise the normalized rows are returned. -/
def stepOfAttempt (normalize : Frame → List StockRecord)
    (provider : Nat → AttemptOutcome) (t : Nat) : StepResult :=
  match provider t with
  | .raise => .exn
  | .ret f =>
    if f.rows.isEmpty then .done none
    else if f.wellFormed then .done (some (normalize f))
    else .exn

/-- The retry loop `for attempt in range(max_retries)` shared by
`_get_a_stock_data` and `_get_hk_stock_data`, with `r` the number of
attempts still allowed (so `t` is the 0-based attempt index and the
initial call has `r = max_retries`).  Returns the function's result
together with the list of back-off sleeps taken between attempts, in
order. -/
def retryGo (step : Nat → StepResult) (sleepFor : Nat → ℚ) :
    Nat → Nat → Option (List StockRecord) × List ℚ
  | _, 0 => (none, [])
  | t, r + 1 =>
    match step t with
    | .done res => (res, [])
    | .exn =>
      if r = 0 then (none, [])
      else
        let rest := retryGo step sleepFor (t + 1) r
        (rest.1, sleepFor t :: rest.2)

/-- max_retries of `_get_a_stock_data`. -/
def aMaxRetries : Nat := 2

/-- retry_delay of `_get_a_stock_data` (0.1 seconds). -/
def aRetryDelay : ℚ := 1 / 10

/-- max_retries of `_get_hk_stock_data`. -/
def hkMaxRetries : Nat := 3

/-- `_get_a_stock_data`: up to `aMaxRetries` attempts; between failed
attempts the source sleeps `time.sleep(retry_delay)` — the constant
`aRetryDelay`. -/
def getAStockData (name : String) (provider : Nat → AttemptOutcome) :
    Option (List StockRecord) × List ℚ :=
  retryGo (stepOfAttempt (normalizeA name) provider)
    (fun _ => aRetryDelay) 0 aMaxRetries

/-- `_get_hk_stock_data`: up to `hkMaxRetries` attempts; between failed
attempts the source sleeps `retry_delay * (attempt + 1)`.  The constant
retry_delay differs between the two files (1 in get_stocks_data.py,
0.1 in test.py), so it is a parameter. -/
def getHKStockData (retryDelay : ℚ) (symbol name : String)
    (provider : Nat → AttemptOutcome) : Option (List StockRecord) × List ℚ :=
  retryGo (stepOfAttempt (normalizeHK symbol name) provider)
    (fun t => retryDelay * ((t : ℚ) + 1)) 0 hkMaxRetries

/-- A provider whose every attempt raises. -/
def alwaysRaise : Nat → AttemptOutcome := fun _ => .raise

/-- Python str.zfill on an unsigned string: left-pad with '0' to width
`w` (stock codes carry no sign, so the sign handling of zfill is
irrelevant here). -/
def zfill (w : Nat) (s : String) : String :=
  String.mk (List.replicate (w - s.length) '0') ++ s

/-- The shared body of `_process_a_stock_list` and
`_process_hk_stock_list` (they differ only in the zfill width `w` and in
pacing sleeps, which carry no data): walk the list, zero-pad the code,
fetch; append fetched rows to the accumulated data, or record the failed
stock as a (code, name) dict.  `fetchRes` is the Option-valued result of
`_get_a_stock_data` / `_get_hk_stock_data` for a given padded code and
name. -/
def processStockList (w : Nat)
    (fetchRes : String → String → Option (List StockRecord)) :
    List Instr → List StockRecord → List StockRecord × List Instr
  | [], acc => (acc, [])
  | row :: rest, acc =>
    let stockCode := zfill w row.code
    let stockName := row.name
    match fetchRes stockCode stockName with
    | some rows => processStockList w fetchRes rest (acc ++ rows)
    | none =>
      let r := processStockList w fetchRes rest acc
      (r.1, (⟨stockCode, stockName⟩ : Instr) :: r.2)

/-- `_process_a_stock_list`: A-share codes are zero-padded to 6 digits. -/
def processAStockList (fetchRes : String → String → Option (List StockRecord))
    (aStockList : List Instr) (allStockData : List StockRecord) :
    List StockRecord × List Instr :=
  processStockList 6 fetchRes aStockList allStockData

/-- `_process_hk_stock_list`: HK codes are zero-padded to 5 digits. -/
def processHKStockList (fetchRes : String → String → Option (List StockRecord))
    (hkStockList : List Instr) (allStockData : List StockRecord) :
    List StockRecord × List Instr :=
  processStockList 5 fetchRes hkStockList allStockData

/-- A persisted output CSV file: its record rows, plus whether its Date
column is present and parseable (when it is not,
`_get_latest_date_from_csv` falls back to returning ""). -/
structure Csv where
  rows : List StockRecord
  dateReadable : Bool

/-- Latest value of the Date column (`pd.to_datetime(...).max()`). -/
def maxDate (l : List StockRecord) : Nat :=
  l.foldl (fun m r => max m r.date) 0

/-- `_get_latest_date_from_csv`: none models the "" result — file absent,
Date column unreadable, or zero rows; otherwise the latest date. -/
def latestDateFromCsv (o : Option Csv) : Option Nat :=
  match o with
  | none => none
  | some c =>
    if c.dateReadable && !c.rows.isEmpty then some (maxDate c.rows) else none

/-- The start date computed by `get_innovative_drug_stocks_data`
(get_stocks_data.py lines 366-380): in incremental mode with an existing
output file whose latest date resolves to `d`, start is `d + 1`;
otherwise start is `today - 365`. -/
def planStartGSD (incremental : Bool) (outputCsv : Option Csv) (today : Nat) : Nat :=
  if incremental && outputCsv.isSome then
    match latestDateFromCsv outputCsv with
    | some d => d + 1
    | none => today - 365
  else today - 365

/-- `_get_incremental_dates` (test.py lines 260-293): end is today; with
no existing data, start is today - daysBack; otherwise start is the
latest existing date + 1, and when that exceeds the end date the source
assigns `start_date = end_date` and returns that one-day window. -/
def getIncrementalDates (existingData : List StockRecord)
    (today daysBack : Nat) : Nat × Nat :=
  let endDate := today
  if existingData.isEmpty then
    (today - daysBack, endDate)
  else
    let startDate := maxDate existingData + 1
    if startDate > endDate then (endDate, endDate)
    else (startDate, endDate)

/-- The outcome of `pd.read_csv` on an input stock-list file. -/
inductive LoadResult where
  | ok (stocks : List Instr)
  | fileNotFound
  | otherError

/-- An initialization error raised out of the run. -/
inductive LoadError where
  | fileNotFoundA
  | valueErrorA
  | fileNotFoundHK
deriving DecidableEq

/-- The observable outcome of one run of the pipeline: the returned
dataset, the residual failed-stock lists, the final round counter, and
the number of single-instrument fetch invocations made. -/
structure RunResult where
  data : List StockRecord
  failedA : List Instr
  failedHK : List Instr
  rounds : Nat
  fetchCalls : Nat
deriving DecidableEq

/-- The retry while-loop of `get_innovative_drug_stocks_data`: while some
list of failed stocks is non-empty and `roundNum < maxRounds`, increment
the round counter, wait, and re-process each non-empty failed list
(threading the accumulated data).  `fuel` bounds the recursion
structurally; every call below passes `fuel = maxRounds`, which is at
least the number of remaining iterations, so the fuel-exhausted branch is
never taken on those calls. -/
def retryRounds (fetchA fetchHK : Nat → String → String → Option (List StockRecord))
    (maxRounds : Nat) :
    Nat → List Instr → List Instr → List StockRecord → Nat → Nat → RunResult
  | 0, failedA, failedHK, acc, roundNum, calls =>
    ⟨acc, failedA, failedHK, roundNum, calls⟩
  | fuel + 1, failedA, failedHK, acc, roundNum, calls =>
    if (failedA ≠ [] ∨ failedHK ≠ []) ∧ roundNum < maxRounds then
      let roundNum' := roundNum + 1
      let pa :=
        if failedA.isEmpty then (acc, ([] : List Instr))
        else processAStockList (fetchA roundNum') failedA acc
      let ph :=
        if failedHK.isEmpty then (pa.1, ([] : List Instr))
        else processHKStockList (fetchHK roundNum') failedHK pa.1
      retryRounds fetchA fetchHK maxRounds fuel pa.2 ph.2 ph.1 roundNum'
        (calls + failedA.length + failedHK.length)
    else ⟨acc, failedA, failedHK, roundNum, calls⟩

/-- `get_innovative_drug_stocks_data` after the stock lists have loaded:
round 1 over both lists starting from an empty accumulated dataset, the
retry loop, then the save step — merge with the existing file in
incremental mode, otherwise just sort; when nothing was fetched, return
the existing file's rows (or an empty dataset when there is no file). -/
def runGSDRounds (outputCsv : Option Csv)
    (fetchA fetchHK : Nat → String → String → Option (List StockRecord))
    (incremental : Bool) (maxRetryRounds : Nat)
    (aStockList hkStockList : List Instr) : RunResult :=
  let p1 :=
    if aStockList.isEmpty then (([] : List StockRecord), ([] : List Instr))
    else processAStockList (fetchA 1) aStockList []
  let p2 :=
    if hkStockList.isEmpty then (p1.1, ([] : List Instr))
    else processHKStockList (fetchHK 1) hkStockList p1.1
  let r := retryRounds fetchA fetchHK maxRetryRounds maxRetryRounds p1.2 p2.2 p2.1 1
    (aStockList.length + hkStockList.length)
  let existingRows := match outputCsv with | some c => c.rows | none => []
  let finalData :=
    if r.data.isEmpty then existingRows
    else if incremental && outputCsv.isSome then mergeDatasets existingRows r.data
    else sortDataframe r.data
  ⟨finalData, r.failedA, r.failedHK, r.rounds, r.fetchCalls⟩

/-- `get_innovative_drug_stocks_data` (get_stocks_data.py lines 336-563):
plan the window; when the computed start is after today, return the
existing file unchanged without loading lists or fetching; otherwise load
the A-share list (FileNotFoundError and other errors both abort) and the
HK list (FileNotFoundError aborts; any other load error degrades to an
empty HK list), then fetch, retry, and merge. -/
def runGSD (today : Nat) (outputCsv : Option Csv)
    (aLoad hkLoad : LoadResult)
    (fetchA fetchHK : Nat → String → String → Option (List StockRecord))
    (incremental : Bool) (maxRetryRounds : Nat) : Except LoadError RunResult :=
  let startDate := planStartGSD incremental outputCsv today
  if startDate > today then
    .ok ⟨(match outputCsv with | some c => c.rows | none => []), [], [], 0, 0⟩
  else
    match aLoad with
    | .fileNotFound => .error .fileNotFoundA
    | .otherError => .error .valueErrorA
    | .ok aStockList =>
      match hkLoad with
      | .fileNotFound => .error .fileNotFoundHK
      | .ok hkStockList =>
        .ok (runGSDRounds outputCsv fetchA fetchHK incremental maxRetryRounds
          aStockList hkStockList)
      | .otherError =>
        .ok (runGSDRounds outputCsv fetchA fetchHK incremental maxRetryRounds
          aStockList [])

/-- One entry written by `_write_log_file`: a plain text line, the
success-rate line carrying the computed percentage, or the success-rate
line carrying the literal text N/A. -/
inductive LogEntry where
  | text (s : String)
  | successRatePct (q : ℚ)
  | successRateNA
deriving DecidableEq

/-- The separator line `"=" * 60` used by `_write_log_file`. -/
def sepLine : String :=
  String.mk (List.replicate 60 '=')

/-- `_write_log_file` (get_stocks_data.py lines 226-283): the sequence of
lines appended to the log file.  The percentage is computed only in the
`total_stocks > 0` branch; the other branch writes the N/A line. -/
def writeLogFile (completionTime : String)
    (failedAStocks failedHkStocks : List Instr)
    (totalStocks successfulStocks : Nat) (incrementalMode : Bool) :
    List LogEntry :=
  [LogEntry.text sepLine,
    LogEntry.text "股票数据获取程序执行日志",
    LogEntry.text sepLine,
    LogEntry.text ("程序执行完成时间: " ++ completionTime),
    LogEntry.text (if incrementalMode then "运行模式: 增量更新" else "运行模式: 全量更新"),
    LogEntry.text "股票数据获取结果:",
    LogEntry.text ("  总股票数量: " ++ toString totalStocks),
    LogEntry.text ("  成功获取: " ++ toString successfulStocks),
    LogEntry.text ("  失败数量: " ++
      toString (failedAStocks.length + failedHkStocks.length))]
  ++ (if totalStocks > 0 then
        [LogEntry.successRatePct
          ((successfulStocks : ℚ) / (totalStocks : ℚ) * 100)]
      else [LogEntry.successRateNA])
  ++ (if failedAStocks ≠ [] ∨ failedHkStocks ≠ [] then
        [LogEntry.text "失败的股票列表:"]
        ++ (if failedAStocks ≠ [] then
              LogEntry.text "  A股失败股票:" ::
                failedAStocks.enum.map (fun p =>
                  LogEntry.text ("    " ++ toString (p.1 + 1) ++ ". " ++
                    p.2.code ++ " - " ++ p.2.name))
            else [])
        ++ (if failedHkStocks ≠ [] then
              LogEntry.text "  港股失败股票:" ::
                failedHkStocks.enum.map (fun p =>
                  LogEntry.text ("    " ++ toString (p.1 + 1) ++ ". " ++
                    p.2.code ++ " - " ++ p.2.name))
            else [])
      else [LogEntry.text "所有股票数据均已成功获取！"])
  ++ [LogEntry.text sepLine]

/-- A record dated on day 1000, used in concrete instances below. -/
def recToday : StockRecord :=
  ⟨1000, "000001", 0, 0, 0, 0, 0, 0, "X", "A"⟩

/-- An existing output CSV whose latest (only) date is day 1000. -/
def witCsv : Csv :=
  ⟨[recToday], true⟩

/-- A concrete A-share list of three stocks. -/
def witAList : List Instr :=
  [⟨"000001", "A1"⟩, ⟨"000002", "A2"⟩, ⟨"000003", "A3"⟩]

/-- A concrete HK list of two stocks. -/
def witHkList : List Instr :=
  [⟨"00004", "H1"⟩, ⟨"00005", "H2"⟩]

/-- The always-failing subset of the A-share list: code 000002. -/
def witFa : Instr → Bool := fun s => s.code == "000002"

/-- The always-failing subset of the HK list: code 00005. -/
def witFhk : Instr → Bool := fun s => s.code == "00005"

/-- A fetch behaviour that always fails on code 000002 and always
succeeds otherwise. -/
def witFetchA : Nat → String → String → Option (List StockRecord) :=
  fun _ c n =>
    if c == "000002" then none
    else some [⟨900, c, 0, 0, 0, 0, 0, 0, n, "A"⟩]

/-- A fetch behaviour that always fails on code 00005 and always
succeeds otherwise. -/
def witFetchHK : Nat → String → String → Option (List StockRecord) :=
  fun _ c n =>
    if c == "00005" then none
    else some [⟨900, c, 0, 0, 0, 0, 0, 0, n, "HK"⟩]

theorem lastWithKey_some {l : List StockRecord} {k} {a}
    (h : lastWithKey l k = some a) : a ∈ l ∧ key a = k := by
  induction l with
  | nil => simp [lastWithKey] at h
  | cons r rs ih =>
    simp only [lastWithKey] at h
    cases hrs : lastWithKey rs k with
    | some s =>
      rw [hrs] at h
      simp only [Option.or_some, Option.some.injEq] at h
      subst h
      rcases ih hrs with ⟨h1, h2⟩
      exact ⟨List.mem_cons_of_mem _ h1, h2⟩
    | none =>
      rw [hrs] at h
      simp only [Option.none_or] at h
      by_cases hk : key r = k
      · rw [if_pos hk] at h
        cases h
        exact ⟨List.mem_cons_self _ _, hk⟩
      · rw [if_neg hk] at h
        cases h

theorem lastWithKey_eq_none {l : List StockRecord} {k} :
    lastWithKey l k = none ↔ ∀ s ∈ l, key s ≠ k := by
  induction l with
  | nil => simp [lastWithKey]
  | cons r rs ih =>
    simp only [lastWithKey, List.mem_cons, Option.or_eq_none]
    constructor
    · intro h
      rcases h with ⟨h1, h2⟩
      intro s hs
      rcases hs with hs | hs
      · subst hs
        intro hk
        rw [if_pos hk] at h2
        cases h2
      · exact ih.1 h1 s hs
    · intro h
      refine ⟨ih.2 fun s hs => h s (Or.inr hs), ?_⟩
      rw [if_neg (h r (Or.inl rfl))]

theorem mem_dropDupKeepLast {l : List StockRecord} {a : StockRecord} :
    a ∈ dropDupKeepLast l ↔ lastWithKey l (key a) = some a := by
  induction l with
  | nil => simp [dropDupKeepLast, lastWithKey]
  | cons r rs ih =>
    simp only [dropDupKeepLast, lastWithKey]
    by_cases hmem : key r ∈ rs.map key
    · rw [if_pos hmem]
      cases hrs : lastWithKey rs (key a) with
      | some s =>
        rw [hrs] at ih
        simpa using ih
      | none =>
        rw [hrs] at ih
        simp only [Option.none_or]
        by_cases hk : key r = key a
        · rcases List.mem_map.1 hmem with ⟨s, hs, hks⟩
          exact absurd (hks.trans hk) (lastWithKey_eq_none.1 hrs s hs)
        · rw [if_neg hk]
          exact ih
    · rw [if_neg hmem]
      simp only [List.mem_cons]
      cases hrs : lastWithKey rs (key a) with
      | some s =>
        rw [hrs] at ih
        simp only [Option.or_some, Option.some.injEq]
        constructor
        · intro h
          rcases h with rfl | h
          · rcases lastWithKey_some hrs with ⟨hsmem, hsk⟩
            exact absurd (List.mem_map.2 ⟨s, hsmem, hsk⟩) hmem
          · exact Option.some.inj (ih.1 h)
        · intro h
          subst h
          exact Or.inr (ih.2 rfl)
      | none =>
        rw [hrs] at ih
        simp only [Option.none_or]
        by_cases hk : key r = key a
        · rw [if_pos hk]
          simp only [Option.some.injEq]
          constructor
          · intro h
            rcases h with h | h
            · exact h.symm
            · rw [ih] at h; cases h
          · intro h
            exact Or.inl h.symm
        · rw [if_neg hk]
          constructor
          · intro h
            rcases h with rfl | h
            · exact absurd rfl hk
            · exact ih.1 h
          · intro h
            cases h

theorem dropDupKeepLast_subset {l : List StockRecord} {a : StockRecord}
    (h : a ∈ dropDupKeepLast l) : a ∈ l :=
  (lastWithKey_some (mem_dropDupKeepLast.1 h)).1

theorem keysNodup_dropDupKeepLast (l : List StockRecord) :
    KeysNodup (dropDupKeepLast l) := by
  induction l with
  | nil => simp [dropDupKeepLast, KeysNodup]
  | cons r rs ih =>
    simp only [dropDupKeepLast]
    by_cases hmem : key r ∈ rs.map key
    · rw [if_pos hmem]; exact ih
    · rw [if_neg hmem]
      refine List.Nodup.cons ?_ ih
      intro hk
      rcases List.mem_map.1 hk with ⟨s, hs, hks⟩
      exact hmem (List.mem_map.2 ⟨s, dropDupKeepLast_subset hs, hks⟩)

theorem lastWithKey_append (l₁ l₂ : List StockRecord) (k) :
    lastWithKey (l₁ ++ l₂) k = (lastWithKey l₂ k).or (lastWithKey l₁ k) := by
  induction l₁ with
  | nil => simp [lastWithKey, Option.or_none]
  | cons r rs ih =>
    simp only [List.cons_append, lastWithKey, List.append_eq, ih, Option.or_assoc]

theorem lastWithKey_of_mem {l : List StockRecord} {a : StockRecord}
    (hn : KeysNodup l) (ha : a ∈ l) : lastWithKey l (key a) = some a := by
  induction l with
  | nil => cases ha
  | cons r rs ih =>
    simp only [KeysNodup, List.map_cons, List.nodup_cons] at hn
    rcases List.mem_cons.1 ha with ha | ha
    · subst ha
      have hnone : lastWithKey rs (key a) = none :=
        lastWithKey_eq_none.2 fun s hs hk => hn.1 (List.mem_map.2 ⟨s, hs, hk⟩)
      simp [lastWithKey, hnone]
    · simp [lastWithKey, ih hn.2 ha]

theorem keysNodup_of_perm {l₁ l₂ : List StockRecord}
    (h : l₁.Perm l₂) (hn : KeysNodup l₁) : KeysNodup l₂ :=
  ((h.map key).nodup_iff).1 hn

theorem sortDataframe_perm (l : List StockRecord) : (sortDataframe l).Perm l :=
  List.mergeSort_perm l recLeB

theorem keysNodup_sortDataframe {l : List StockRecord} (hn : KeysNodup l) :
    KeysNodup (sortDataframe l) :=
  keysNodup_of_perm (sortDataframe_perm l).symm hn

theorem nodup_of_keysNodup {l : List StockRecord} (hn : KeysNodup l) : l.Nodup :=
  List.Nodup.of_map key hn

theorem sortKey_eq_iff {a b : StockRecord} : sortKey a = sortKey b ↔ key a = key b := by
  simp only [sortKey, key, toLex_inj, Prod.mk.injEq]
  rw [← String.ext_iff, ← String.ext_iff]
  tauto

theorem sortDataframe_sorted (l : List StockRecord) :
    (sortDataframe l).Pairwise fun a b => sortKey a ≤ sortKey b := by
  have h : (l.mergeSort recLeB).Pairwise fun a b => recLeB a b := by
    apply List.sorted_mergeSort
    · intro a b c h1 h2
      simp only [recLeB, decide_eq_true_eq] at h1 h2 ⊢
      exact le_trans h1 h2
    · intro a b
      simp only [recLeB]
      rcases le_total (sortKey a) (sortKey b) with h | h
      · simp [h]
      · simp [h]
  exact h.imp fun hab => by simpa [recLeB, decide_eq_true_eq] using hab

theorem pairwise_key_ne_of_keysNodup {l : List StockRecord} (h : KeysNodup l) :
    l.Pairwise fun a b => key a ≠ key b :=
  List.pairwise_map.1 h

theorem sortDataframe_sorted_strict {l : List StockRecord} (h : KeysNodup l) :
    (sortDataframe l).Pairwise recLt := by
  have h1 := sortDataframe_sorted l
  have h2 : (sortDataframe l).Pairwise fun a b => key a ≠ key b :=
    pairwise_key_ne_of_keysNodup (keysNodup_sortDataframe h)
  exact (h1.and h2).imp fun hab =>
    lt_of_le_of_ne hab.1 fun he => hab.2 (sortKey_eq_iff.1 he)

theorem sortDataframe_eq_of_perm {l₁ l₂ : List StockRecord}
    (hp : l₁.Perm l₂) (h1 : KeysNodup l₁) : sortDataframe l₁ = sortDataframe l₂ := by
  have h2 : KeysNodup l₂ := keysNodup_of_perm hp h1
  exact List.eq_of_perm_of_sorted
    (((sortDataframe_perm l₁).trans hp).trans (sortDataframe_perm l₂).symm)
    (sortDataframe_sorted_strict h1) (sortDataframe_sorted_strict h2)

theorem mergeDatasets_perm_dropDup (d b : List StockRecord) :
    (mergeDatasets d b).Perm (dropDupKeepLast (d ++ b)) :=
  sortDataframe_perm (dropDupKeepLast (d ++ b))

theorem keysNodup_mergeDatasets (d b : List StockRecord) :
    KeysNodup (mergeDatasets d b) :=
  keysNodup_of_perm (mergeDatasets_perm_dropDup d b).symm (keysNodup_dropDupKeepLast _)

theorem dropDup_merge_left_perm (d b : List StockRecord) :
    (dropDupKeepLast (mergeDatasets d b ++ b)).Perm (dropDupKeepLast (d ++ b)) := by
  have hn1 : KeysNodup (dropDupKeepLast (mergeDatasets d b ++ b)) :=
    keysNodup_dropDupKeepLast _
  have hn2 : KeysNodup (dropDupKeepLast (d ++ b)) := keysNodup_dropDupKeepLast _
  rw [List.perm_ext_iff_of_nodup (nodup_of_keysNodup hn1) (nodup_of_keysNodup hn2)]
  intro a
  rw [mem_dropDupKeepLast, mem_dropDupKeepLast, lastWithKey_append, lastWithKey_append]
  cases hb : lastWithKey b (key a) with
  | some s => simp
  | none =>
    simp only [Option.none_or]
    constructor
    · intro h
      have ha : a ∈ mergeDatasets d b := (lastWithKey_some h).1
      have ha2 : a ∈ dropDupKeepLast (d ++ b) :=
        (mergeDatasets_perm_dropDup d b).mem_iff.1 ha
      have := mem_dropDupKeepLast.1 ha2
      rw [lastWithKey_append, hb, Option.none_or] at this
      exact this
    · intro h
      have hfull : lastWithKey (d ++ b) (key a) = some a := by
        rw [lastWithKey_append, hb, Option.none_or]
        exact h
      have hmem : a ∈ dropDupKeepLast (d ++ b) := mem_dropDupKeepLast.2 hfull
      have haM : a ∈ mergeDatasets d b :=
        (mergeDatasets_perm_dropDup d b).mem_iff.2 hmem
      exact lastWithKey_of_mem (keysNodup_mergeDatasets d b) haM

/-- C3: merging an incoming batch into a dataset is idempotent — for every
existing dataset `d` and incoming batch `b`, merging `b` twice gives the
same dataset as merging it once, where the merge is concatenation,
dropping duplicate (Date, Code, Type) keys keeping the last occurrence,
and sorting (get_stocks_data.py lines 504-520). -/
theorem merge_idempotent (d b : List StockRecord) :
    mergeDatasets (mergeDatasets d b) b = mergeDatasets d b :=
  sortDataframe_eq_of_perm (dropDup_merge_left_perm d b)
    (keysNodup_dropDupKeepLast _)

theorem merge_cex_eval :
    mergeDatasets [] [cexRecA, cexRecHK] = [cexRecA, cexRecHK] := by
  have h1 : dropDupKeepLast ([] ++ [cexRecA, cexRecHK]) = [cexRecA, cexRecHK] := by
    decide
  show sortDataframe (dropDupKeepLast ([] ++ [cexRecA, cexRecHK])) = _
  rw [h1]
  exact List.mergeSort_of_sorted (by decide)

/-- C4 counterexample: the merge output is NOT sorted by the canonical key
tuple (date, code, market).  On the same date, the A-share record with
code "B" is placed before the HK record with code "A" (the source sorts
by ['Date', 'Type', 'Code'], and "A" < "HK"), so the adjacent pair
violates the (date, code, market) order. -/
theorem merge_not_sorted_by_canonical_key :
    ¬ (mergeDatasets [] [cexRecA, cexRecHK]).Pairwise
        fun a b => canonKey a ≤ canonKey b := by
  rw [merge_cex_eval]
  decide

/-- C4 (amended): every dataset produced by the merge step is totally
sorted by the key tuple the source actually sorts with, (date, market,
code) — pandas sort_values(['Date', 'Type', 'Code']) — i.e. all pairs
(in particular all adjacent pairs) are ordered by that tuple. -/
theorem merge_sorted_by_date_type_code (d b : List StockRecord) :
    (mergeDatasets d b).Pairwise fun a c => sortKey a ≤ sortKey c :=
  sortDataframe_sorted _

theorem retryGo_sleeps_get (step : Nat → StepResult) (sleepFor : Nat → ℚ) :
    ∀ r t j q, ((retryGo step sleepFor t r).2).get? j = some q →
      q = sleepFor (t + j) := by
  intro r
  induction r with
  | zero => intro t j q h; simp [retryGo] at h
  | succ r ih =>
    intro t j q h
    simp only [retryGo] at h
    cases hst : step t with
    | done res => rw [hst] at h; simp at h
    | exn =>
      rw [hst] at h
      by_cases hr : r = 0
      · rw [if_pos hr] at h; simp at h
      · rw [if_neg hr] at h
        cases j with
        | zero =>
          simp only [List.get?_cons_zero, Option.some.injEq] at h
          rw [← h, Nat.add_zero]
        | succ j =>
          simp only [List.get?_cons_succ] at h
          have := ih (t + 1) j q h
          rw [this, Nat.add_assoc, Nat.add_comm 1 j]

theorem retryGo_sleeps_length (step : Nat → StepResult) (sleepFor : Nat → ℚ) :
    ∀ r t, ((retryGo step sleepFor t r).2).length ≤ r - 1 := by
  intro r
  induction r with
  | zero => intro t; simp [retryGo]
  | succ r ih =>
    intro t
    simp only [retryGo]
    cases hst : step t with
    | done res => simp
    | exn =>
      by_cases hr : r = 0
      · rw [if_pos hr]; simp
      · rw [if_neg hr]
        simp only [List.length_cons]
        have := ih (t + 1)
        omega

/-- C5: in every single-instrument fetch, every back-off sleep taken
between failed attempt j+1 and attempt j+2 (the j-th recorded sleep,
0-based) equals base_delay * (j + 1): for the HK fetch by the formula
retry_delay * (attempt + 1); for the A-share fetch the source sleeps the
constant retry_delay, and with aMaxRetries = 2 the only possible sleep is
the 0-th, whose value aRetryDelay equals aRetryDelay * (0 + 1). -/
theorem fetch_backoff_linear (nameA : String) (pA : Nat → AttemptOutcome)
    (retryDelay : ℚ) (symbol nameHK : String) (pHK : Nat → AttemptOutcome)
    (j : Nat) (q : ℚ) :
    (((getAStockData nameA pA).2).get? j = some q →
      q = aRetryDelay * ((j : ℚ) + 1)) ∧
    (((getHKStockData retryDelay symbol nameHK pHK).2).get? j = some q →
      q = retryDelay * ((j : ℚ) + 1)) := by
  constructor
  · intro h
    have hj : j < ((getAStockData nameA pA).2).length :=
      List.get?_eq_some.1 h |>.1
    have hlen := retryGo_sleeps_length
      (stepOfAttempt (normalizeA nameA) pA) (fun _ => aRetryDelay) aMaxRetries 0
    have hj0 : j = 0 := by
      have : ((getAStockData nameA pA).2).length ≤ 1 := hlen
      omega
    subst hj0
    have := retryGo_sleeps_get
      (stepOfAttempt (normalizeA nameA) pA) (fun _ => aRetryDelay) aMaxRetries 0 0 q h
    rw [this]
    norm_num
  · intro h
    have := retryGo_sleeps_get
      (stepOfAttempt (normalizeHK symbol nameHK) pHK)
      (fun t => retryDelay * ((t : ℚ) + 1)) hkMaxRetries 0 j q h
    rw [this]
    norm_num

theorem fetch_backoff_linear_witness :
    (∃ q : ℚ, (getAStockData "X" alwaysRaise).2.get? 0 = some q ∧
      q = aRetryDelay * (((0 : ℕ) : ℚ) + 1)) ∧
    (∃ q : ℚ, (getHKStockData 1 "00001" "Y" alwaysRaise).2.get? 1 = some q ∧
      q = 1 * (((1 : ℕ) : ℚ) + 1)) := by
  constructor
  · refine ⟨aRetryDelay, rfl, ?_⟩
    exact (fetch_backoff_linear "X" alwaysRaise 1 "00001" "Y"
      alwaysRaise 0 aRetryDelay).1 rfl
  · refine ⟨_, rfl, ?_⟩
    exact (fetch_backoff_linear "X" alwaysRaise 1 "00001" "Y"
      alwaysRaise 1 _).2 rfl

theorem retryGo_result (step : Nat → StepResult) (sleepFor : Nat → ℚ)
    (hstep : ∀ t rows, step t = .done (some rows) → rows ≠ []) :
    ∀ r t, (retryGo step sleepFor t r).1 = none ∨
      ∃ rows, (retryGo step sleepFor t r).1 = some rows ∧ rows ≠ [] := by
  intro r
  induction r with
  | zero => intro t; left; simp [retryGo]
  | succ r ih =>
    intro t
    simp only [retryGo]
    cases hst : step t with
    | done res =>
      cases res with
      | none => left; rfl
      | some rows => right; exact ⟨rows, rfl, hstep t rows hst⟩
    | exn =>
      by_cases hr : r = 0
      · rw [if_pos hr]; left; rfl
      · rw [if_neg hr]; exact ih (t + 1)

theorem stepOfAttempt_done_some {normalize : Frame → List StockRecord}
    {provider : Nat → AttemptOutcome} {t : Nat} {rows : List StockRecord}
    (hnorm : ∀ f : Frame, f.rows ≠ [] → normalize f ≠ [])
    (h : stepOfAttempt normalize provider t = .done (some rows)) : rows ≠ [] := by
  cases hp : provider t with
  | raise => simp [stepOfAttempt, hp] at h
  | ret f =>
    simp only [stepOfAttempt, hp] at h
    by_cases he : f.rows.isEmpty
    · rw [if_pos he] at h; cases h
    · rw [if_neg he] at h
      by_cases hw : f.wellFormed
      · rw [if_pos hw] at h
        cases h
        exact hnorm f (by simpa [List.isEmpty_iff] using he)
      · rw [if_neg hw] at h; cases h

/-- C6: for every instrument and every behaviour of the provider (raising
on any subset of attempts, returning malformed frames, or returning empty
results), the single-instrument fetch functions return either a non-empty
record list or the FAILED sentinel None; every exception is absorbed by
the retry loop's handler, never propagated. -/
theorem fetch_never_raises (nameA : String) (pA : Nat → AttemptOutcome)
    (retryDelay : ℚ) (symbol nameHK : String) (pHK : Nat → AttemptOutcome) :
    ((getAStockData nameA pA).1 = none ∨
      ∃ rows, (getAStockData nameA pA).1 = some rows ∧ rows ≠ []) ∧
    ((getHKStockData retryDelay symbol nameHK pHK).1 = none ∨
      ∃ rows, (getHKStockData retryDelay symbol nameHK pHK).1 = some rows ∧
        rows ≠ []) := by
  constructor
  · exact retryGo_result _ _
      (fun t rows h => stepOfAttempt_done_some
        (fun f hf => by simpa [normalizeA, List.map_eq_nil_iff] using hf) h)
      aMaxRetries 0
  · exact retryGo_result _ _
      (fun t rows h => stepOfAttempt_done_some
        (fun f hf => by simpa [normalizeHK, List.map_eq_nil_iff] using hf) h)
      hkMaxRetries 0

/-- C1 (evaluation at the failing input): with an existing dataset whose
latest date equals today (day 1000), test.py's `_get_incremental_dates`
clamps the computed start (1001) down to the end date and returns the
non-empty one-day window (1000, 1000) — so its caller's start > end
short-circuit can never fire and a fetch proceeds — whereas
get_stocks_data.py computes start 1001 > today and short-circuits to the
empty window the spec describes. -/
theorem incremental_window_at_today_divergence :
    getIncrementalDates [recToday] 1000 365 = (1000, 1000) ∧
    ¬ 1000 > 1000 ∧
    planStartGSD true (some witCsv) 1000 = 1001 ∧
    1001 > 1000 :=
  ⟨by decide, by omega, by decide, by omega⟩

/-- C2: whenever the planner's computed start date is after today (an
empty window), the run makes zero fetch calls and returns the previously
persisted dataset unchanged — same records, same order. -/
theorem empty_window_short_circuit (today : Nat) (outputCsv : Option Csv)
    (aLoad hkLoad : LoadResult)
    (fetchA fetchHK : Nat → String → String → Option (List StockRecord))
    (incremental : Bool) (maxRetryRounds : Nat)
    (h : planStartGSD incremental outputCsv today > today) :
    ∃ c : Csv, outputCsv = some c ∧
      runGSD today outputCsv aLoad hkLoad fetchA fetchHK incremental
          maxRetryRounds =
        .ok ⟨c.rows, [], [], 0, 0⟩ := by
  cases outputCsv with
  | none =>
    exfalso
    simp [planStartGSD] at h
    omega
  | some c =>
    refine ⟨c, rfl, ?_⟩
    simp only [runGSD]
    rw [if_pos h]

theorem empty_window_short_circuit_witness :
    ∃ c : Csv, some witCsv = some c ∧
      runGSD 1000 (some witCsv) (.ok []) (.ok [])
          (fun _ _ _ => none) (fun _ _ _ => none) true 5 =
        .ok ⟨c.rows, [], [], 0, 0⟩ :=
  empty_window_short_circuit 1000 (some witCsv) (.ok []) (.ok [])
    (fun _ _ _ => none) (fun _ _ _ => none) true 5 (by decide)

/-- C7 counterexample: a run in which the A-share list loads fine but the
HK list file is absent ABORTS with the re-raised FileNotFoundError — it
does not continue with the A-share instruments only. -/
theorem hk_file_not_found_aborts :
    runGSD 1000 none (.ok [⟨"000001", "X"⟩]) .fileNotFound
        (fun _ _ _ => none) (fun _ _ _ => none) false 5 =
      .error .fileNotFoundHK := by
  rfl

/-- C7 (amended): when the HK list fails to load for any reason OTHER
than the file being absent, the run degrades: it behaves exactly as if
the HK list were empty and continues with the A-share instruments only.
(When the HK file is absent, the source re-raises and the run aborts —
see the counterexample theorem.) -/
theorem hk_load_error_degrades (today : Nat) (outputCsv : Option Csv)
    (aList : List Instr)
    (fetchA fetchHK : Nat → String → String → Option (List StockRecord))
    (incremental : Bool) (maxRetryRounds : Nat) :
    runGSD today outputCsv (.ok aList) .otherError fetchA fetchHK incremental
        maxRetryRounds =
      runGSD today outputCsv (.ok aList) (.ok []) fetchA fetchHK incremental
        maxRetryRounds :=
  rfl

theorem processStockList_failed (w : Nat)
    (fetchRes : String → String → Option (List StockRecord)) :
    ∀ (l : List Instr) (acc : List StockRecord),
      (processStockList w fetchRes l acc).2 =
        (l.map fun s => (⟨zfill w s.code, s.name⟩ : Instr)).filter
          fun s => (fetchRes s.code s.name).isNone := by
  intro l
  induction l with
  | nil => intro acc; simp [processStockList]
  | cons row rest ih =>
    intro acc
    simp only [processStockList, List.map_cons, List.filter_cons]
    cases hf : fetchRes (zfill w row.code) row.name with
    | some rows => simp [hf, ih]
    | none => simp [hf, ih]

theorem processStockList_data_prefix (w : Nat)
    (fetchRes : String → String → Option (List StockRecord)) :
    ∀ (l : List Instr) (acc : List StockRecord),
      ∃ t, (processStockList w fetchRes l acc).1 = acc ++ t := by
  intro l
  induction l with
  | nil => intro acc; exact ⟨[], by simp [processStockList]⟩
  | cons row rest ih =>
    intro acc
    simp only [processStockList]
    cases hf : fetchRes (zfill w row.code) row.name with
    | some rows =>
      rcases ih (acc ++ rows) with ⟨t, ht⟩
      exact ⟨rows ++ t, by simp [ht]⟩
    | none =>
      rcases ih acc with ⟨t, ht⟩
      exact ⟨t, by simp [ht]⟩

/-- C10 counterexample: with the unpadded input code "1" and a failing
fetch, the recorded failure entry carries the zero-padded code "000001"
and is therefore not an element of the input instrument list. -/
theorem process_failed_not_drawn_cex :
    (processAStockList (fun _ _ => none) [⟨"1", "X"⟩] []).2 =
        [(⟨"000001", "X"⟩ : Instr)] ∧
      (⟨"000001", "X"⟩ : Instr) ∉ [(⟨"1", "X"⟩ : Instr)] := by
  constructor
  · rfl
  · decide

/-- C10 (amended): the per-market processing functions only append to the
accumulated dataset — every record of the input accumulation is still
present in the output — and every returned failure entry is the
zero-padded form (6 digits for A-shares, 5 for HK) of an instrument
drawn from the input list: same name, code left-padded with zeros; in
particular, when the input codes are already padded, every failure entry
is an element of the input list. -/
theorem process_monotone_and_failed_from_input
    (fetchRes : String → String → Option (List StockRecord))
    (l : List Instr) (acc : List StockRecord) :
    ((∀ r ∈ acc, r ∈ (processAStockList fetchRes l acc).1) ∧
      ∀ e ∈ (processAStockList fetchRes l acc).2,
        ∃ s ∈ l, e = (⟨zfill 6 s.code, s.name⟩ : Instr)) ∧
    ((∀ r ∈ acc, r ∈ (processHKStockList fetchRes l acc).1) ∧
      ∀ e ∈ (processHKStockList fetchRes l acc).2,
        ∃ s ∈ l, e = (⟨zfill 5 s.code, s.name⟩ : Instr)) := by
  have hgen : ∀ w : Nat,
      (∀ r ∈ acc, r ∈ (processStockList w fetchRes l acc).1) ∧
      ∀ e ∈ (processStockList w fetchRes l acc).2,
        ∃ s ∈ l, e = (⟨zfill w s.code, s.name⟩ : Instr) := by
    intro w
    constructor
    · intro r hr
      rcases processStockList_data_prefix w fetchRes l acc with ⟨t, ht⟩
      rw [ht]
      exact List.mem_append_left t hr
    · intro e he
      rw [processStockList_failed] at he
      rcases List.mem_filter.1 he with ⟨hmem, _⟩
      rcases List.mem_map.1 hmem with ⟨s, hs, hes⟩
      exact ⟨s, hs, hes.symm⟩
  exact ⟨hgen 6, hgen 5⟩

theorem process_monotone_witness :
    recToday ∈ (processAStockList (fun _ _ => none) [⟨"1", "X"⟩] [recToday]).1 ∧
    ∃ s ∈ [(⟨"1", "X"⟩ : Instr)],
      (⟨"000001", "X"⟩ : Instr) = (⟨zfill 6 s.code, s.name⟩ : Instr) := by
  constructor
  · exact ((process_monotone_and_failed_from_input (fun _ _ => none)
      [⟨"1", "X"⟩] [recToday]).1).1 recToday (List.mem_singleton.2 rfl)
  · exact ((process_monotone_and_failed_from_input (fun _ _ => none)
      [⟨"1", "X"⟩] [recToday]).1).2 ⟨"000001", "X"⟩ (by decide)

theorem instr_pad_eq {w : Nat} {s : Instr} (h : zfill w s.code = s.code) :
    (⟨zfill w s.code, s.name⟩ : Instr) = s := by
  cases s
  simp_all

theorem map_pad_eq_self (w : Nat) (l : List Instr)
    (hpad : ∀ s ∈ l, zfill w s.code = s.code) :
    (l.map fun s => (⟨zfill w s.code, s.name⟩ : Instr)) = l := by
  have h1 : ∀ s ∈ l, (fun s => (⟨zfill w s.code, s.name⟩ : Instr)) s = id s := by
    intro s hs
    simp only [id]
    exact instr_pad_eq (hpad s hs)
  rw [List.map_congr_left h1, List.map_id]

theorem processStockList_failed_filter (w : Nat)
    (fetchRes : String → String → Option (List StockRecord)) (F : Instr → Bool)
    (l : List Instr)
    (hpad : ∀ s ∈ l, zfill w s.code = s.code)
    (hF : ∀ s ∈ l, (fetchRes s.code s.name = none ↔ F s = true))
    (acc : List StockRecord) :
    (processStockList w fetchRes l acc).2 = l.filter F := by
  rw [processStockList_failed, map_pad_eq_self w l hpad]
  apply List.filter_congr
  intro s hs
  cases hfs : fetchRes s.code s.name with
  | none =>
    rw [Option.isNone_none]
    exact ((hF s hs).1 hfs).symm
  | some v =>
    rw [Option.isNone_some]
    cases hFs : F s with
    | false => rfl
    | true => exact absurd ((hF s hs).2 hFs) (by simp [hfs])

theorem retryRounds_const_fail
    (fetchA fetchHK : Nat → String → String → Option (List StockRecord))
    (maxRounds : Nat) (FA FH : List Instr)
    (hA : ∀ rn acc, (processAStockList (fetchA rn) FA acc).2 = FA)
    (hH : ∀ rn acc, (processHKStockList (fetchHK rn) FH acc).2 = FH)
    (hne : FA ≠ [] ∨ FH ≠ []) :
    ∀ fuel roundNum acc calls, maxRounds ≤ roundNum + fuel →
      roundNum ≤ maxRounds →
      (retryRounds fetchA fetchHK maxRounds fuel FA FH acc roundNum
          calls).failedA = FA ∧
      (retryRounds fetchA fetchHK maxRounds fuel FA FH acc roundNum
          calls).failedHK = FH ∧
      (retryRounds fetchA fetchHK maxRounds fuel FA FH acc roundNum
          calls).rounds = maxRounds := by
  intro fuel
  induction fuel with
  | zero =>
    intro roundNum acc calls h1 h2
    have hr : roundNum = maxRounds := by omega
    subst hr
    exact ⟨rfl, rfl, rfl⟩
  | succ fuel ih =>
    intro roundNum acc calls h1 h2
    by_cases hlt : roundNum < maxRounds
    · have hpa : (if FA.isEmpty then (acc, ([] : List Instr))
          else processAStockList (fetchA (roundNum + 1)) FA acc).2 = FA := by
        by_cases hFA : FA.isEmpty
        · rw [if_pos hFA]
          exact (List.isEmpty_iff.1 hFA).symm
        · rw [if_neg hFA]
          exact hA _ _
      have hph : ∀ P1 : List StockRecord,
          (if FH.isEmpty then (P1, ([] : List Instr))
            else processHKStockList (fetchHK (roundNum + 1)) FH P1).2 = FH := by
        intro P1
        by_cases hFH : FH.isEmpty
        · rw [if_pos hFH]
          exact (List.isEmpty_iff.1 hFH).symm
        · rw [if_neg hFH]
          exact hH _ _
      simp only [retryRounds]
      rw [if_pos ⟨hne, hlt⟩, hpa, hph]
      exact ih (roundNum + 1) _ _ (by omega) (by omega)
    · simp only [retryRounds]
      rw [if_neg fun hc => hlt hc.2]
      have hr : roundNum = maxRounds := by omega
      subst hr
      exact ⟨rfl, rfl, rfl⟩

theorem runGSDRounds_failed (outputCsv : Option Csv)
    (fetchA fetchHK : Nat → String → String → Option (List StockRecord))
    (incremental : Bool) (maxRounds : Nat) (aList hkList FA FH : List Instr)
    (hp1 : (if aList.isEmpty then (([] : List StockRecord), ([] : List Instr))
        else processAStockList (fetchA 1) aList []).2 = FA)
    (hp2 : ∀ P1 : List StockRecord,
        (if hkList.isEmpty then (P1, ([] : List Instr))
          else processHKStockList (fetchHK 1) hkList P1).2 = FH)
    (hA : ∀ rn acc, (processAStockList (fetchA rn) FA acc).2 = FA)
    (hH : ∀ rn acc, (processHKStockList (fetchHK rn) FH acc).2 = FH)
    (hne : FA ≠ [] ∨ FH ≠ []) (hmax : 1 ≤ maxRounds) :
    (runGSDRounds outputCsv fetchA fetchHK incremental maxRounds aList
        hkList).failedA = FA ∧
    (runGSDRounds outputCsv fetchA fetchHK incremental maxRounds aList
        hkList).failedHK = FH ∧
    (runGSDRounds outputCsv fetchA fetchHK incremental maxRounds aList
        hkList).rounds = maxRounds := by
  simp only [runGSDRounds]
  rw [hp1, hp2]
  exact retryRounds_const_fail fetchA fetchHK maxRounds FA FH hA hH hne
    maxRounds 1 _ _ (by omega) hmax

/-- C8: for instrument lists (in canonical zero-padded form) on which a
fixed subset always fails (the fetch returns the FAILED sentinel exactly
on that subset, in every round) and the rest always succeed: after round
1 each failure list is exactly the failing subset, in input order; and
when some instrument is always-failing, the loop stops at the round cap
with the residual failure lists still equal to those subsets and the
round counter equal to max_retry_rounds. -/
theorem round_shrinkage_and_cap (today : Nat) (aList hkList : List Instr)
    (Fa Fhk : Instr → Bool)
    (fetchA fetchHK : Nat → String → String → Option (List StockRecord))
    (maxRounds : Nat)
    (hFa : ∀ r c n, fetchA r c n = none ↔ Fa ⟨c, n⟩ = true)
    (hFhk : ∀ r c n, fetchHK r c n = none ↔ Fhk ⟨c, n⟩ = true)
    (hpadA : ∀ s ∈ aList, zfill 6 s.code = s.code)
    (hpadHK : ∀ s ∈ hkList, zfill 5 s.code = s.code)
    (hmax : 1 ≤ maxRounds)
    (hne : aList.filter Fa ≠ [] ∨ hkList.filter Fhk ≠ []) :
    (∀ acc, (processAStockList (fetchA 1) aList acc).2 = aList.filter Fa) ∧
    (∀ acc, (processHKStockList (fetchHK 1) hkList acc).2 = hkList.filter Fhk) ∧
    ∃ res : RunResult,
      runGSD today none (.ok aList) (.ok hkList) fetchA fetchHK false
          maxRounds = .ok res ∧
      res.failedA = aList.filter Fa ∧
      res.failedHK = hkList.filter Fhk ∧
      res.rounds = maxRounds := by
  have hfiltA : ∀ rn acc,
      (processAStockList (fetchA rn) aList acc).2 = aList.filter Fa :=
    fun rn acc => processStockList_failed_filter 6 (fetchA rn) Fa aList hpadA
      (fun s _ => hFa rn s.code s.name) acc
  have hfiltHK : ∀ rn acc,
      (processHKStockList (fetchHK rn) hkList acc).2 = hkList.filter Fhk :=
    fun rn acc => processStockList_failed_filter 5 (fetchHK rn) Fhk hkList hpadHK
      (fun s _ => hFhk rn s.code s.name) acc
  have hA : ∀ rn acc,
      (processAStockList (fetchA rn) (aList.filter Fa) acc).2 =
        aList.filter Fa := by
    intro rn acc
    have hsub : ∀ s ∈ aList.filter Fa, s ∈ aList :=
      fun s hs => (List.mem_filter.1 hs).1
    have hall : (aList.filter Fa).filter Fa = aList.filter Fa :=
      List.filter_eq_self.2 fun s hs => (List.mem_filter.1 hs).2
    calc (processAStockList (fetchA rn) (aList.filter Fa) acc).2
        = (aList.filter Fa).filter Fa :=
          processStockList_failed_filter 6 (fetchA rn) Fa (aList.filter Fa)
            (fun s hs => hpadA s (hsub s hs))
            (fun s _ => hFa rn s.code s.name) acc
      _ = aList.filter Fa := hall
  have hH : ∀ rn acc,
      (processHKStockList (fetchHK rn) (hkList.filter Fhk) acc).2 =
        hkList.filter Fhk := by
    intro rn acc
    have hsub : ∀ s ∈ hkList.filter Fhk, s ∈ hkList :=
      fun s hs => (List.mem_filter.1 hs).1
    have hall : (hkList.filter Fhk).filter Fhk = hkList.filter Fhk :=
      List.filter_eq_self.2 fun s hs => (List.mem_filter.1 hs).2
    calc (processHKStockList (fetchHK rn) (hkList.filter Fhk) acc).2
        = (hkList.filter Fhk).filter Fhk :=
          processStockList_failed_filter 5 (fetchHK rn) Fhk (hkList.filter Fhk)
            (fun s hs => hpadHK s (hsub s hs))
            (fun s _ => hFhk rn s.code s.name) acc
      _ = hkList.filter Fhk := hall
  have hp1 : (if aList.isEmpty then (([] : List StockRecord), ([] : List Instr))
      else processAStockList (fetchA 1) aList []).2 = aList.filter Fa := by
    by_cases hE : aList.isEmpty
    · rw [if_pos hE, List.isEmpty_iff.1 hE]
      rfl
    · rw [if_neg hE]
      exact hfiltA 1 []
  have hp2 : ∀ P1 : List StockRecord,
      (if hkList.isEmpty then (P1, ([] : List Instr))
        else processHKStockList (fetchHK 1) hkList P1).2 = hkList.filter Fhk := by
    intro P1
    by_cases hE : hkList.isEmpty
    · rw [if_pos hE, List.isEmpty_iff.1 hE]
      rfl
    · rw [if_neg hE]
      exact hfiltHK 1 P1
  have hfields := runGSDRounds_failed none fetchA fetchHK false maxRounds
    aList hkList (aList.filter Fa) (hkList.filter Fhk) hp1 hp2 hA hH hne hmax
  refine ⟨fun acc => hfiltA 1 acc, fun acc => hfiltHK 1 acc,
    runGSDRounds none fetchA fetchHK false maxRounds aList hkList, ?_,
    hfields.1, hfields.2.1, hfields.2.2⟩
  have hplan : ¬ planStartGSD false none today > today := by
    simp [planStartGSD]
  simp only [runGSD]
  rw [if_neg hplan]

theorem round_shrinkage_and_cap_witness :
    (∀ acc, (processAStockList (witFetchA 1) witAList acc).2 =
      witAList.filter witFa) ∧
    (∀ acc, (processHKStockList (witFetchHK 1) witHkList acc).2 =
      witHkList.filter witFhk) ∧
    ∃ res : RunResult,
      runGSD 1000 none (.ok witAList) (.ok witHkList) witFetchA witFetchHK
          false 2 = .ok res ∧
      res.failedA = witAList.filter witFa ∧
      res.failedHK = witHkList.filter witFhk ∧
      res.rounds = 2 := by
  apply round_shrinkage_and_cap
  · intro r c n
    cases h : c == "000002" <;> simp [witFetchA, witFa, h]
  · intro r c n
    cases h : c == "00005" <;> simp [witFetchHK, witFhk, h]
  · decide
  · decide
  · omega
  · left
    decide

/-- C9: in every invocation of the log writer, the success-rate
percentage is computed only under the guard total_stocks > 0 — any
percentage entry in the written log implies 0 < total_stocks and carries
the value successful/total*100 — and the N/A line is written exactly
when total_stocks = 0, so the division is never evaluated with a zero
denominator. -/
theorem success_rate_guarded (completionTime : String)
    (failedA failedHK : List Instr) (totalStocks successfulStocks : Nat)
    (incrementalMode : Bool) :
    (LogEntry.successRateNA ∈
        writeLogFile completionTime failedA failedHK totalStocks
          successfulStocks incrementalMode ↔
      totalStocks = 0) ∧
    ∀ q : ℚ, LogEntry.successRatePct q ∈
        writeLogFile completionTime failedA failedHK totalStocks
          successfulStocks incrementalMode →
      0 < totalStocks ∧
        q = (successfulStocks : ℚ) / (totalStocks : ℚ) * 100 := by
  constructor
  · by_cases ht : totalStocks > 0 <;>
      by_cases hfa : failedA = [] <;>
        by_cases hfh : failedHK = [] <;>
          simp [writeLogFile, ht, hfa, hfh] <;>
            omega
  · intro q hq
    by_cases ht : totalStocks > 0
    · refine ⟨ht, ?_⟩
      by_cases hfa : failedA = [] <;>
        by_cases hfh : failedHK = [] <;>
          simp [writeLogFile, ht, hfa, hfh] at hq <;>
            exact hq
    · exfalso
      by_cases hfa : failedA = [] <;>
        by_cases hfh : failedHK = [] <;>
          simp [writeLogFile, ht, hfa, hfh] at hq

theorem success_rate_guarded_witness :
    0 < 4 ∧ (((3 : ℕ) : ℚ) / ((4 : ℕ) : ℚ) * 100) =
      ((3 : ℕ) : ℚ) / ((4 : ℕ) : ℚ) * 100 :=
  (success_rate_guarded "t" [] [] 4 3 true).2
    (((3 : ℕ) : ℚ) / ((4 : ℕ) : ℚ) * 100)
    (by simp [writeLogFile])

end Stocks
